import Mathlib

/-!
Verification of the PatchStudio core (normalizer, parser, locator, applier,
diff generator) against its natural-language specification.

Text is modelled as `List Char` ("Text"); Python's `str.split("\n")` style
line lists as `List Text`.  All definitions are shallow embeddings of the
functions in `src/patchstudio/core/*.py`; doc comments name the source
function each definition embeds.
-/

namespace PatchStudio

/-- Internal text: a Python `str` as a list of characters. -/
abbrev Text := List Char

/-- Coerce a Lean string literal to `Text`. -/
def lc (s : String) : Text := s.data

/-- Python `\s` (whitespace class) restricted to ASCII, as used by
`str.strip`, `str.rstrip` and `re.sub(r"\s+", ...)` in the core. -/
def pySpace (c : Char) : Bool :=
  c = ' ' || c = '\t' || c = '\n' || c = '\r' || c = '\x0b' || c = '\x0c'

/-- `p.isPrefixOf s` on `Text` (Python `str.startswith`). -/
def startsWithT (s pre : Text) : Bool :=
  match pre, s with
  | [], _ => true
  | _ :: _, [] => false
  | p :: ps, c :: cs => p = c && startsWithT cs ps

/-- Python `s.split("\n")`: always returns at least one element. -/
def splitNL : Text → List Text
  | [] => [[]]
  | '\n' :: rest => [] :: splitNL rest
  | c :: rest =>
    match splitNL rest with
    | [] => [[c]]
    | l :: ls => (c :: l) :: ls

/-- Python `"\n".join(lines)`. -/
def joinNL : List Text → Text
  | [] => []
  | [l] => l
  | l :: ls => l ++ '\n' :: joinNL ls

/-- Python `s.endswith("\n")`. -/
def endsWithNL (s : Text) : Bool :=
  match s.getLast? with
  | some '\n' => true
  | _ => false

/-- Python `s.replace("\r\n", "\n")` (left-to-right, non-overlapping). -/
def replCRLF : Text → Text
  | '\r' :: '\n' :: rest => '\n' :: replCRLF rest
  | c :: rest => c :: replCRLF rest
  | [] => []

/-- Python `s.replace("\r", "\n")`. -/
def replCR (s : Text) : Text := s.map (fun c => if c = '\r' then '\n' else c)

/-- `PatchInputNormalizer.normalize`, lines 37-41 (normalizer.py): strip the
leading BOM via `lstrip("\uFEFF")` when the text starts with one, then fold
`CRLF -> LF`, then stray `CR -> LF`. -/
def normalize_text (raw : Text) : Text :=
  let t := if startsWithT raw (lc "\uFEFF") then raw.dropWhile (· = '\uFEFF') else raw
  replCR (replCRLF t)

/-- Count non-overlapping occurrences of `"\r\n"` (Python `bytes.count(b"\r\n")`). -/
def countCRLF : Text → Nat
  | '\r' :: '\n' :: rest => countCRLF rest + 1
  | _ :: rest => countCRLF rest
  | [] => 0

/-- Count occurrences of `"\n"` (Python `bytes.count(b"\n")`). -/
def countLF (s : Text) : Nat := s.count '\n'

/-- `PatchApplier._detect_eol` (applier.py lines 403-413) on the byte content
of the file; `none` models the read failing (the `except` branch). -/
def detect_eol (data : Option Text) : Text :=
  match data with
  | none => lc "\n"
  | some d =>
    let crlf := countCRLF d
    let lf := countLF d
    if 0 < crlf ∧ (crlf : Int) ≥ (lf : Int) - (crlf : Int) then lc "\r\n" else lc "\n"

/-- The EOL choice made by `PatchApplier.apply_to_disk` before a create or
modify write (applier.py lines 338-340 and 382-384):
`eol = "\n"; if preserve_eol and target.exists(): eol = detect_eol(target)`.
`existing = none` models no file at the target; `some d` models a file whose
read attempt produced `d` (`d = none` when the read raised). -/
def choose_write_eol (preserve_eol : Bool) (existing : Option (Option Text)) : Text :=
  if preserve_eol then
    match existing with
    | some d => detect_eol d
    | none => lc "\n"
  else lc "\n"

/-- Metadata bag: the parser's `Dict[str, Any]` restricted to the string
values it actually stores, with unique keys. -/
abbrev Metadata := List (String × Text)

/-- Python dict truthiness test `metadata.get(k)` for string values: the key
is present and its value is a non-empty string. -/
def mdTruthy (md : Metadata) (k : String) : Bool :=
  match md.lookup k with
  | some v => !v.isEmpty
  | none => false

/-- Python `metadata[k] = v` with dict overwrite semantics. -/
def mdSet (md : Metadata) (k : String) (v : Text) : Metadata :=
  if (md.lookup k).isSome then md.map (fun kv => if kv.1 = k then (k, v) else kv)
  else md ++ [(k, v)]

/-- `UnifiedDiffParser._infer_operation` (parser.py lines 58-68). The
metadata keys `new_file_mode`, `deleted_file_mode`, `rename_from`,
`rename_to` are the parser's records of the wire lines `new file mode`,
`deleted file mode`, `rename from`, `rename to`. -/
def infer_operation (old_path new_path : Text) (md : Metadata) : String :=
  if mdTruthy md "new_file_mode" || old_path = lc "/dev/null" then "create"
  else if mdTruthy md "deleted_file_mode" || new_path = lc "/dev/null" then "delete"
  else if mdTruthy md "rename_from" || mdTruthy md "rename_to" then "rename"
  else if old_path ≠ new_path ∧ old_path ≠ lc "/dev/null" ∧ new_path ≠ lc "/dev/null" then "rename"
  else "modify"

/-- Drop trailing characters satisfying `p` (Python `str.rstrip` family). -/
def rstripBy (p : Char → Bool) (s : Text) : Text := (s.reverse.dropWhile p).reverse

/-- Python `re.sub(r"\s+", " ", s)`: each maximal whitespace run becomes one space. -/
def collapseWs : Text → Text
  | [] => []
  | c :: rest =>
    if pySpace c then ' ' :: collapseWs (rest.dropWhile pySpace)
    else c :: collapseWs rest
  termination_by s => s.length
  decreasing_by
    · simp only [List.length_cons]
      exact Nat.lt_succ_of_le (List.dropWhile_suffix _).length_le
    · simp

/-- `PatchApplier._normalize_match_line` (applier.py lines 434-442):
rstrip CR/LF, then rstrip whitespace, then (if `ignore_ws`) collapse
whitespace runs to single spaces. -/
def normalize_match_line (s : Text) (ignore_ws : Bool) : Text :=
  let s1 := rstripBy (fun c => c = '\r' || c = '\n') s
  let s2 := rstripBy pySpace s1
  if ignore_ws then collapseWs s2 else s2

/-- `models.Hunk`: header line and `(tag, text)` pairs with tag one of
`' '`, `'-'`, `'+'`. -/
structure Hunk where
  old_start : Nat
  old_count : Nat
  new_start : Nat
  new_count : Nat
  header : Text
  lines : List (Char × Text)
deriving DecidableEq

/-- `PatchApplier._count_tag` (applier.py lines 534-535). -/
def count_tag (hunk_lines : List (Char × Text)) (tag : Char) : Nat :=
  (hunk_lines.filter (fun ts => ts.1 = tag)).length

/-- Inner loop of `PatchApplier._hunk_anchors_match`: compare the anchor
sequence against the buffer starting at `idx`. -/
def anchors_loop (lines : List Text) (ignore_ws : Bool) :
    List (Char × Text) → Nat → Bool
  | [], _ => true
  | (_, s) :: rest, idx =>
    match lines[idx]? with
    | none => false
    | some have_ =>
      normalize_match_line s ignore_ws = normalize_match_line have_ ignore_ws
        && anchors_loop lines ignore_ws rest (idx + 1)

/-- `PatchApplier._hunk_anchors_match` (applier.py lines 587-607): the
context/deletion subsequence must match the buffer at `pos`.  An empty
anchor sequence matches before the bounds check, exactly as in the source;
`pos < 0` cannot occur for `Nat`. -/
def hunk_anchors_match (lines : List Text) (h : Hunk) (pos : Nat) (ignore_ws : Bool) : Bool :=
  let seq := h.lines.filter (fun ts => ts.1 = ' ' || ts.1 = '-')
  if seq.isEmpty then true
  else if pos > lines.length then false
  else anchors_loop lines ignore_ws seq pos

/-- Candidate positions of the fuzzy step: Python
`range(start, end + 1)` filtered by `hunk_anchors_match`. -/
def fuzzy_candidates (lines : List Text) (h : Hunk) (ignore_ws : Bool)
    (start stop : Nat) : List Nat :=
  (List.range' start (stop + 1 - start)).filter
    (fun p => hunk_anchors_match lines h p ignore_ws)

/-- The sort key order used at applier.py line 578:
`(abs(x - pos), x)` compared lexicographically, strictly. -/
def closerThan (pos a b : Nat) : Bool :=
  Nat.dist a pos < Nat.dist b pos
    || (Nat.dist a pos = Nat.dist b pos && a < b)

/-- `candidates.sort(key=lambda x: (abs(x - pos), x)); candidates[0]`:
the unique minimum of the strict total lexicographic key order. -/
def pick_closest (pos : Nat) : List Nat → Option Nat
  | [] => none
  | c :: rest => some (rest.foldl (fun best p => if closerThan pos p best then p else best) c)

/-- `PatchApplier._locate_hunk_position` (applier.py lines 537-585), decision
trace omitted: strict check at the clamped position, then (if `fuzzy`) the
window search.  `expected_pos` is already a clamped-to-`0` `Nat`, so
`min (max expected_pos 0) len = min expected_pos len`. -/
def locate_hunk_position (lines : List Text) (h : Hunk) (expected_pos : Nat)
    (ignore_ws fuzzy : Bool) (fuzzy_window : Nat) : Option Nat :=
  let pos := min expected_pos lines.length
  if hunk_anchors_match lines h pos ignore_ws then some pos
  else if !fuzzy then none
  else
    pick_closest pos
      (fuzzy_candidates lines h ignore_ws (pos - fuzzy_window)
        (min lines.length (pos + fuzzy_window)))

/-- Loop of `PatchApplier._apply_hunk_at` (applier.py lines 625-655):
`out` starts as `lines[:pos]` and `i` as `pos`; context lines re-verify and
copy, deletions re-verify and skip, additions insert.  A failure carries the
mismatch reason and the index `i` at which it occurred. -/
def apply_hunk_loop (lines : List Text) (ignore_ws : Bool) :
    List (Char × Text) → Nat → List Text → Except (String × Nat) (List Text)
  | [], i, out => .ok (out ++ lines.drop i)
  | (t, s) :: rest, i, out =>
    if t = ' ' then
      match lines[i]? with
      | none => .error ("Context beyond EOF", i)
      | some have_ =>
        if normalize_match_line s ignore_ws = normalize_match_line have_ ignore_ws then
          apply_hunk_loop lines ignore_ws rest (i + 1) (out ++ [have_])
        else .error ("Context mismatch", i)
    else if t = '-' then
      match lines[i]? with
      | none => .error ("Deletion beyond EOF", i)
      | some have_ =>
        if normalize_match_line s ignore_ws = normalize_match_line have_ ignore_ws then
          apply_hunk_loop lines ignore_ws rest (i + 1) out
        else .error ("Deletion mismatch", i)
    else if t = '+' then
      apply_hunk_loop lines ignore_ws rest i (out ++ [s])
    else
      apply_hunk_loop lines ignore_ws rest i out

/-- `PatchApplier._apply_hunk_at` (applier.py lines 609-657): returns
`(ok, new_lines, delta_offset, mismatch_info)`; on failure the input buffer
is returned unchanged with delta `0`, on success the delta is
`count('+') - count('-')`. -/
def apply_hunk_at (lines : List Text) (h : Hunk) (pos : Nat) (ignore_ws : Bool) :
    Bool × List Text × Int × Option (String × Nat) :=
  match apply_hunk_loop lines ignore_ws h.lines pos (lines.take pos) with
  | .ok out =>
    (true, out, (count_tag h.lines '+' : Int) - (count_tag h.lines '-' : Int), none)
  | .error m => (false, lines, 0, some m)

/-- `PatchApplier._insert_conflict_markers` (applier.py lines 690-702),
returning the updated buffer instead of mutating it. -/
def insert_conflict_markers (lines : List Text) (pos : Nat) (h : Hunk) : List Text :=
  let original_part := (h.lines.filter (fun ts => ts.1 = ' ' || ts.1 = '-')).map Prod.snd
  let patch_part := (h.lines.filter (fun ts => ts.1 = ' ' || ts.1 = '+')).map Prod.snd
  let markers := lc "<<<<<<< ORIGINAL" :: original_part
    ++ lc "=======" :: patch_part ++ [lc ">>>>>>> PATCH"]
  let insert_at := min pos lines.length
  lines.take insert_at ++ markers ++ lines.drop insert_at

/-- The option subset read by `_apply_filepatch_in_memory`
(applier.py lines 449-452). -/
structure ApplyOptions where
  ignore_ws : Bool
  fuzzy : Bool
  fuzzy_window : Nat
  conflict_mode : Bool
deriving DecidableEq

/-- State threaded through the hunk loop of `_apply_filepatch_in_memory`
(applier.py lines 478-525): buffer, running `line_offset`, the three stats
counters, and the `failed`/`conflicted` diagnostics flags. -/
structure LoopState where
  out_lines : List Text
  line_offset : Int
  hunks_applied : Nat
  lines_added : Nat
  lines_removed : Nat
  failed : Bool
  conflicted : Bool
deriving DecidableEq

/-- `expected_pos = max(0, (h.old_start - 1) + line_offset)`
(applier.py line 488), as a `Nat`. -/
def expected_pos_of (h : Hunk) (line_offset : Int) : Nat :=
  (max 0 ((h.old_start : Int) - 1 + line_offset)).toNat

/-- One iteration of the hunk loop of `_apply_filepatch_in_memory`
(applier.py lines 487-525). -/
def step_hunk (opts : ApplyOptions) (s : LoopState) (h : Hunk) : LoopState :=
  let expected := expected_pos_of h s.line_offset
  match locate_hunk_position s.out_lines h expected opts.ignore_ws opts.fuzzy opts.fuzzy_window with
  | none =>
    if opts.conflict_mode then
      { s with out_lines := insert_conflict_markers s.out_lines expected h,
               conflicted := true, hunks_applied := s.hunks_applied + 1 }
    else { s with failed := true }
  | some apply_pos =>
    match apply_hunk_at s.out_lines h apply_pos opts.ignore_ws with
    | (true, new_out, delta, _) =>
      { s with out_lines := new_out,
               line_offset := s.line_offset + delta,
               hunks_applied := s.hunks_applied + 1,
               lines_added := s.lines_added + count_tag h.lines '+',
               lines_removed := s.lines_removed + count_tag h.lines '-' }
    | (false, _, _, _) =>
      if opts.conflict_mode then
        { s with out_lines := insert_conflict_markers s.out_lines apply_pos h,
                 conflicted := true, hunks_applied := s.hunks_applied + 1 }
      else { s with failed := true }

/-- The hunk loop: the source `return`s out of the loop as soon as a hunk
fails without conflict mode, so a failed state stops processing. -/
def run_hunks (opts : ApplyOptions) : LoopState → List Hunk → LoopState
  | s, [] => s
  | s, h :: rest => if s.failed then s else run_hunks opts (step_hunk opts s h) rest

/-- Initial buffer construction of `_apply_filepatch_in_memory`
(applier.py lines 456-478): create starts empty; otherwise fold CRLF/CR to
LF and split on LF; the trailing-`""` append never fires for a text ending
in LF because `split` already produces it, but is embedded faithfully. -/
def initial_lines (operation : String) (original_text : Text) : List Text :=
  if operation = "create" then []
  else
    let t := replCR (replCRLF original_text)
    let ls := splitNL t
    if endsWithNL t ∧ ls ≠ [] ∧ ls.getLast? ≠ some [] then ls ++ [[]] else ls

/-- `PatchApplier._apply_filepatch_in_memory` (applier.py lines 444-532)
with the file read replaced by the `original_text` argument (the caller
supplies what `Path(resolved_path).read_text` returned).  Returns the final
loop state; the produced text is `joinNL` of its buffer. -/
def apply_filepatch_in_memory (operation : String) (original_text : Text)
    (hunks : List Hunk) (opts : ApplyOptions) : LoopState :=
  run_hunks opts
    { out_lines := initial_lines operation original_text,
      line_offset := 0, hunks_applied := 0, lines_added := 0,
      lines_removed := 0, failed := false, conflicted := false } hunks

/-! ## Theorems -/

/-- C8 counterexample: the claim says a second consecutive leading BOM is
preserved, but `normalize` strips every leading BOM (`lstrip("\uFEFF")`):
on the input `"\uFEFF\uFEFFa"` the output is `"a"`, not `"\uFEFFa"`. -/
theorem normalize_second_bom_not_preserved :
    normalize_text (lc "\uFEFF\uFEFFa") = lc "a" ∧ lc "a" ≠ lc "\uFEFFa" := by
  decide

/-- C8 (amended): `normalize` removes ALL leading UTF-8 BOM characters,
then replaces every CRLF pair with LF, then every remaining CR with LF;
consequently no CR survives normalization. -/
theorem normalize_steps (s : Text) :
    normalize_text s = replCR (replCRLF (s.dropWhile (· = '\uFEFF'))) ∧
      '\r' ∉ normalize_text s := by
  have harg : (if startsWithT s (lc "﻿") = true then s.dropWhile (fun c => c = '﻿') else s)
      = s.dropWhile (fun c => c = '﻿') := by
    by_cases hb : startsWithT s (lc "﻿") = true
    · rw [if_pos hb]
    · rw [if_neg hb]
      cases s with
      | nil => rfl
      | cons c cs =>
        have hc : ¬(c = '﻿') := by
          intro h
          apply hb
          subst h
          simp [startsWithT, lc]
        rw [List.dropWhile_cons, if_neg (by simpa using hc)]
  constructor
  · simp only [normalize_text]
    rw [harg]
  · intro hmem
    simp only [normalize_text, replCR] at hmem
    obtain ⟨a, _, ha⟩ := List.mem_map.mp hmem
    by_cases h : a = '\r' <;> simp [h] at ha

/-- C8 witness: the amended statement evaluated on a concrete mixed input. -/
theorem normalize_steps_witness :
    normalize_text (lc "\uFEFFa\r\nb\rc") =
      replCR (replCRLF ((lc "\uFEFFa\r\nb\rc").dropWhile (· = '\uFEFF'))) ∧
      '\r' ∉ normalize_text (lc "\uFEFFa\r\nb\rc") :=
  normalize_steps (lc "\uFEFFa\r\nb\rc")

/-- C5 counterexample: for a pre-existing target with content `"x"` we have
`count(CRLF) = 0 ≥ count(LF) - count(CRLF) = 0`, so the claim demands CRLF,
but `_detect_eol` additionally requires `crlf > 0` and the code writes LF. -/
theorem eol_claim_false_on_file_without_newlines :
    (countCRLF (lc "x") : Int) ≥ (countLF (lc "x") : Int) - (countCRLF (lc "x") : Int) ∧
      choose_write_eol true (some (some (lc "x"))) = lc "\n" ∧
      lc "\n" ≠ lc "\r\n" := by
  decide

/-- C5 (amended): the chosen line ending is CRLF exactly when
`preserve_original_line_endings` is set, a file exists at the target and is
readable, and its bytes satisfy `count(CRLF) ≥ 1` and
`count(CRLF) ≥ count(LF) - count(CRLF)`; it is LF in every other case. -/
theorem eol_choice_characterization (preserve : Bool) (existing : Option (Option Text)) :
    (choose_write_eol preserve existing = lc "\r\n" ↔
      preserve = true ∧ ∃ d, existing = some (some d) ∧
        1 ≤ countCRLF d ∧ (countCRLF d : Int) ≥ (countLF d : Int) - (countCRLF d : Int)) ∧
    (choose_write_eol preserve existing = lc "\r\n" ∨
      choose_write_eol preserve existing = lc "\n") := by
  have hne : lc "\n" ≠ lc "\r\n" := by decide
  cases preserve with
  | false => simp [choose_write_eol, hne]
  | true =>
    cases existing with
    | none => simp [choose_write_eol, hne]
    | some d =>
      cases d with
      | none => simp [choose_write_eol, detect_eol, hne]
      | some content =>
        simp only [choose_write_eol, detect_eol]
        by_cases hcr : 0 < countCRLF content ∧
            (countCRLF content : Int) ≥ (countLF content : Int) - (countCRLF content : Int)
        · rw [if_pos hcr]
          constructor
          · constructor
            · intro _
              exact ⟨trivial, content, rfl, hcr.1, hcr.2⟩
            · intro _
              rfl
          · left
            rfl
        · rw [if_neg hcr]
          constructor
          · constructor
            · intro h
              exact absurd h hne
            · rintro ⟨-, e, he, hcount, hineq⟩
              obtain rfl : content = e := by injection (by injection he)
              exact absurd ⟨hcount, hineq⟩ hcr
          · right
            rfl

/-- C5 witness: a dominant-CRLF pre-existing file yields CRLF. -/
theorem eol_choice_characterization_witness :
    choose_write_eol true (some (some (lc "a\r\nb\r\n"))) = lc "\r\n" :=
  (eol_choice_characterization true (some (some (lc "a\r\nb\r\n")))).1.mpr
    ⟨rfl, lc "a\r\nb\r\n", rfl, by decide, by decide⟩

/-- C6: operation inference follows the first-matching-rule order: create on
`new file mode` metadata or `old_path = /dev/null`; else delete on
`deleted file mode` metadata or `new_path = /dev/null`; else rename on
rename metadata; else rename when the paths differ and neither is
`/dev/null`; else modify. -/
theorem infer_operation_rules (op np : Text) (md : Metadata) :
    (infer_operation op np md = "create" ↔
      (mdTruthy md "new_file_mode" = true ∨ op = lc "/dev/null")) ∧
    (infer_operation op np md = "delete" ↔
      ¬(mdTruthy md "new_file_mode" = true ∨ op = lc "/dev/null") ∧
      (mdTruthy md "deleted_file_mode" = true ∨ np = lc "/dev/null")) ∧
    (infer_operation op np md = "rename" ↔
      ¬(mdTruthy md "new_file_mode" = true ∨ op = lc "/dev/null") ∧
      ¬(mdTruthy md "deleted_file_mode" = true ∨ np = lc "/dev/null") ∧
      ((mdTruthy md "rename_from" = true ∨ mdTruthy md "rename_to" = true) ∨
        (op ≠ np ∧ op ≠ lc "/dev/null" ∧ np ≠ lc "/dev/null"))) ∧
    (infer_operation op np md = "modify" ↔
      ¬(mdTruthy md "new_file_mode" = true ∨ op = lc "/dev/null") ∧
      ¬(mdTruthy md "deleted_file_mode" = true ∨ np = lc "/dev/null") ∧
      ¬(mdTruthy md "rename_from" = true ∨ mdTruthy md "rename_to" = true) ∧
      ¬(op ≠ np ∧ op ≠ lc "/dev/null" ∧ np ≠ lc "/dev/null")) := by
  have hcd : ("create" : String) ≠ "delete" := by decide
  have hcr : ("create" : String) ≠ "rename" := by decide
  have hcm : ("create" : String) ≠ "modify" := by decide
  have hdr : ("delete" : String) ≠ "rename" := by decide
  have hdm : ("delete" : String) ≠ "modify" := by decide
  have hrm : ("rename" : String) ≠ "modify" := by decide
  simp only [infer_operation]
  split_ifs with h1 h2 h3 h4 <;>
    simp only [Bool.or_eq_true, decide_eq_true_eq] at * <;>
    tauto

lemma count_tag_cons_eq {t : Char} {tag : Char} (s : Text) (rest : List (Char × Text))
    (h : t = tag) : count_tag ((t, s) :: rest) tag = count_tag rest tag + 1 := by
  simp [count_tag, List.filter_cons, h]

lemma count_tag_cons_ne {t : Char} {tag : Char} (s : Text) (rest : List (Char × Text))
    (h : ¬t = tag) : count_tag ((t, s) :: rest) tag = count_tag rest tag := by
  simp [count_tag, List.filter_cons, h]

/-- C9: a hunk with no context and no deletion lines has an empty anchor
sequence, so anchor matching succeeds at every in-range position and the
locator's strict step returns the clamped expected position
`min expected_pos (length buffer)` whatever the buffer, the whitespace
option, or the fuzzy option; an insertion-only hunk never fails to locate. -/
theorem insertion_only_hunk_always_locates (lines : List Text) (h : Hunk)
    (e : Nat) (iw fz : Bool) (w : Nat)
    (hins : ∀ ts ∈ h.lines, ts.1 ≠ ' ' ∧ ts.1 ≠ '-') :
    (∀ p, p ≤ lines.length → hunk_anchors_match lines h p iw = true) ∧
    locate_hunk_position lines h e iw fz w = some (min e lines.length) := by
  have hseq : h.lines.filter (fun ts => ts.1 = ' ' || ts.1 = '-') = [] := by
    rw [List.filter_eq_nil_iff]
    intro ts hts
    obtain ⟨h1, h2⟩ := hins ts hts
    simp [h1, h2]
  have hmatch : ∀ p, hunk_anchors_match lines h p iw = true := by
    intro p
    simp [hunk_anchors_match, hseq]
  exact ⟨fun p _ => hmatch p, by simp [locate_hunk_position, hmatch]⟩

/-- C9 witness: a one-line insertion hunk locates at the clamped position
on a concrete buffer. -/
theorem insertion_only_hunk_always_locates_witness :
    locate_hunk_position [lc "x"]
      { old_start := 9, old_count := 0, new_start := 9, new_count := 1,
        header := lc "@@ -9,0 +9,1 @@", lines := [('+', lc "y")] } 5 false true 3
      = some 1 :=
  (insertion_only_hunk_always_locates [lc "x"]
    { old_start := 9, old_count := 0, new_start := 9, new_count := 1,
      header := lc "@@ -9,0 +9,1 @@", lines := [('+', lc "y")] } 5 false true 3
    (by decide)).2

/-- Length bookkeeping of `apply_hunk_loop`: a successful run turns an
accumulator of length `n` and the unread suffix `lines[i:]` into a result
whose length shifts by additions minus deletions. -/
lemma apply_hunk_loop_length (lines : List Text) (iw : Bool) :
    ∀ (hl : List (Char × Text)) (i : Nat) (acc res : List Text),
      apply_hunk_loop lines iw hl i acc = .ok res →
      (res.length : Int) = acc.length + ((lines.length - i : Nat) : Int)
        + (count_tag hl '+' : Int) - (count_tag hl '-' : Int) := by
  intro hl
  induction hl with
  | nil =>
    intro i acc res heq
    simp only [apply_hunk_loop, Except.ok.injEq] at heq
    subst heq
    simp only [count_tag, List.filter_nil, List.length_nil, Nat.cast_zero,
      List.length_append, List.length_drop]
    omega
  | cons ts rest ih =>
    obtain ⟨t, s⟩ := ts
    intro i acc res heq
    simp only [apply_hunk_loop] at heq
    by_cases ht1 : t = ' '
    · rw [if_pos ht1] at heq
      cases hgi : lines[i]? with
      | none => rw [hgi] at heq; cases heq
      | some lv =>
        rw [hgi] at heq
        simp only at heq
        have hilt : i < lines.length := by
          by_contra hge
          rw [List.getElem?_eq_none (by omega)] at hgi
          cases hgi
        by_cases hm : normalize_match_line s iw = normalize_match_line lv iw
        · rw [if_pos hm] at heq
          have := ih (i + 1) (acc ++ [lv]) res heq
          rw [count_tag_cons_ne s rest (by rw [ht1]; decide),
            count_tag_cons_ne s rest (by rw [ht1]; decide)]
          simp only [List.length_append, List.length_singleton] at this
          omega
        · rw [if_neg hm] at heq; cases heq
    · rw [if_neg ht1] at heq
      by_cases ht2 : t = '-'
      · rw [if_pos ht2] at heq
        cases hgi : lines[i]? with
        | none => rw [hgi] at heq; cases heq
        | some lv =>
          rw [hgi] at heq
          simp only at heq
          have hilt : i < lines.length := by
            by_contra hge
            rw [List.getElem?_eq_none (by omega)] at hgi
            cases hgi
          by_cases hm : normalize_match_line s iw = normalize_match_line lv iw
          · rw [if_pos hm] at heq
            have := ih (i + 1) acc res heq
            rw [count_tag_cons_ne s rest (by rw [ht2]; decide),
              count_tag_cons_eq s rest ht2]
            omega
          · rw [if_neg hm] at heq; cases heq
      · rw [if_neg ht2] at heq
        by_cases ht3 : t = '+'
        · rw [if_pos ht3] at heq
          have := ih i (acc ++ [s]) res heq
          rw [count_tag_cons_eq s rest ht3, count_tag_cons_ne s rest (by rw [ht3]; decide)]
          simp only [List.length_append, List.length_singleton] at this
          omega
        · rw [if_neg ht3] at heq
          have := ih i acc res heq
          rw [count_tag_cons_ne s rest ht3, count_tag_cons_ne s rest ht2]
          omega

/-- A successful `_apply_hunk_at` reports delta = additions - deletions and
shifts the buffer length by exactly that delta. -/
lemma apply_hunk_at_ok (lines : List Text) (h : Hunk) (pos : Nat) (iw : Bool)
    (out : List Text) (delta : Int) (m : Option (String × Nat))
    (heq : apply_hunk_at lines h pos iw = (true, out, delta, m)) :
    delta = (count_tag h.lines '+' : Int) - (count_tag h.lines '-' : Int) ∧
      (out.length : Int) = lines.length + delta := by
  unfold apply_hunk_at at heq
  cases hloop : apply_hunk_loop lines iw h.lines pos (lines.take pos) with
  | ok res =>
    rw [hloop] at heq
    injection heq with h1 hrest
    injection hrest with h2 hrest2
    injection hrest2 with h3 h4
    have hlen := apply_hunk_loop_length lines iw h.lines pos (lines.take pos) res hloop
    have htake : (lines.take pos).length = min pos lines.length := List.length_take ..
    subst h2
    constructor
    · exact h3.symm
    · rw [← h3]
      rw [htake] at hlen
      omega
  | error m2 =>
    rw [hloop] at heq
    cases heq

/-- A failed `_apply_hunk_at` returns the input buffer unchanged, delta 0. -/
lemma apply_hunk_at_err (lines : List Text) (h : Hunk) (pos : Nat) (iw : Bool)
    (out : List Text) (delta : Int) (m : Option (String × Nat))
    (heq : apply_hunk_at lines h pos iw = (false, out, delta, m)) :
    out = lines ∧ delta = 0 := by
  unfold apply_hunk_at at heq
  cases hloop : apply_hunk_loop lines iw h.lines pos (lines.take pos) with
  | ok res => rw [hloop] at heq; cases heq
  | error m2 =>
    rw [hloop] at heq
    injection heq with h1 hrest
    injection hrest with h2 hrest2
    injection hrest2 with h3 h4
    exact ⟨h2.symm, h3.symm⟩

/-- C10: applying a single hunk at a position is atomic: on failure the
input buffer is returned unchanged with delta `0`; on success the delta is
the hunk's additions minus deletions and the fresh buffer's length is the
input length plus that delta (the embedding is pure, so the input list is
never mutated). -/
theorem apply_hunk_at_atomic (lines : List Text) (h : Hunk) (pos : Nat) (iw : Bool)
    (ok : Bool) (out : List Text) (delta : Int) (m : Option (String × Nat))
    (heq : apply_hunk_at lines h pos iw = (ok, out, delta, m)) :
    (ok = false → out = lines ∧ delta = 0) ∧
    (ok = true → delta = (count_tag h.lines '+' : Int) - (count_tag h.lines '-' : Int) ∧
      (out.length : Int) = lines.length + delta) := by
  constructor
  · intro hok
    subst hok
    exact apply_hunk_at_err lines h pos iw out delta m heq
  · intro hok
    subst hok
    exact apply_hunk_at_ok lines h pos iw out delta m heq

/-- C10 witness: the atomicity statement instantiated on a concrete failing
application (context mismatch leaves the buffer untouched). -/
theorem apply_hunk_at_atomic_witness :
    apply_hunk_at [lc "x"]
      { old_start := 1, old_count := 1, new_start := 1, new_count := 1,
        header := lc "@@ -1 +1 @@", lines := [('-', lc "a"), ('+', lc "b")] } 0 false
      = (false, [lc "x"], 0, some ("Deletion mismatch", 0)) ∧
    [lc "x"] = [lc "x"] ∧ (0 : Int) = 0 :=
  ⟨by decide,
    (apply_hunk_at_atomic [lc "x"]
      { old_start := 1, old_count := 1, new_start := 1, new_count := 1,
        header := lc "@@ -1 +1 @@", lines := [('-', lc "a"), ('+', lc "b")] } 0 false
      false [lc "x"] 0 (some ("Deletion mismatch", 0)) (by decide)).1 rfl⟩

/-- The conflict-marker branch sets `conflicted`, and no branch resets it. -/
lemma step_hunk_conflicted_mono (opts : ApplyOptions) (s : LoopState) (h : Hunk)
    (hc : s.conflicted = true) : (step_hunk opts s h).conflicted = true := by
  cases hloc : locate_hunk_position s.out_lines h (expected_pos_of h s.line_offset)
      opts.ignore_ws opts.fuzzy opts.fuzzy_window with
  | none =>
    cases hcm : opts.conflict_mode <;> simp [step_hunk, hloc, hcm, hc]
  | some apply_pos =>
    rcases hap : apply_hunk_at s.out_lines h apply_pos opts.ignore_ws with ⟨ok, out, delta, m⟩
    cases ok with
    | true => simp [step_hunk, hloc, hap, hc]
    | false =>
      cases hcm : opts.conflict_mode <;> simp [step_hunk, hloc, hap, hcm, hc]

/-- Once a file is failed, the remaining hunks are skipped. -/
lemma run_hunks_of_failed (opts : ApplyOptions) (s : LoopState) (hs : List Hunk)
    (hf : s.failed = true) : run_hunks opts s hs = s := by
  cases hs with
  | nil => rfl
  | cons h rest => simp [run_hunks, hf]

/-- `conflicted` persists through the hunk loop. -/
lemma run_hunks_conflicted_mono (opts : ApplyOptions) :
    ∀ (hs : List Hunk) (s : LoopState), s.conflicted = true →
      (run_hunks opts s hs).conflicted = true := by
  intro hs
  induction hs with
  | nil => intro s hc; exact hc
  | cons h rest ih =>
    intro s hc
    by_cases hf : s.failed = true
    · rw [run_hunks, if_pos hf]; exact hc
    · rw [run_hunks, if_neg hf]
      exact ih _ (step_hunk_conflicted_mono opts s h hc)

/-- A step that ends neither failed nor conflicted took the success path:
it keeps the flags and advances `line_offset` by additions - deletions. -/
lemma step_hunk_success (opts : ApplyOptions) (s : LoopState) (h : Hunk)
    (hf : (step_hunk opts s h).failed = false)
    (hc : (step_hunk opts s h).conflicted = false) :
    (step_hunk opts s h).line_offset =
      s.line_offset + ((count_tag h.lines '+' : Int) - (count_tag h.lines '-' : Int)) ∧
    (step_hunk opts s h).failed = s.failed := by
  cases hloc : locate_hunk_position s.out_lines h (expected_pos_of h s.line_offset)
      opts.ignore_ws opts.fuzzy opts.fuzzy_window with
  | none =>
    cases hcm : opts.conflict_mode with
    | true => simp [step_hunk, hloc, hcm] at hc
    | false => simp [step_hunk, hloc, hcm] at hf
  | some apply_pos =>
    rcases hap : apply_hunk_at s.out_lines h apply_pos opts.ignore_ws with ⟨ok, out, delta, m⟩
    cases ok with
    | true =>
      have hdelta := (apply_hunk_at_ok s.out_lines h apply_pos opts.ignore_ws out delta m hap).1
      simp only [step_hunk, hloc, hap]
      exact ⟨by rw [hdelta], by trivial⟩
    | false =>
      cases hcm : opts.conflict_mode with
      | true => simp [step_hunk, hloc, hap, hcm] at hc
      | false => simp [step_hunk, hloc, hap, hcm] at hf

/-- C3: if the hunk loop runs from a non-failed state and finishes neither
failed nor conflicted (every hunk applied successfully, never through the
conflict-marker fallback), the maintained `line_offset` advanced by exactly
the sum over the processed hunks of additions minus deletions.  Applied to
the prefix `hunks.take k` this is the claim for every `k`. -/
theorem offset_accounting (opts : ApplyOptions) (hs : List Hunk) :
    ∀ s : LoopState, s.failed = false →
      (run_hunks opts s hs).failed = false →
      (run_hunks opts s hs).conflicted = false →
      (run_hunks opts s hs).line_offset =
        s.line_offset +
          (hs.map (fun h => (count_tag h.lines '+' : Int) - (count_tag h.lines '-' : Int))).sum := by
  induction hs with
  | nil =>
    intro s _ _ _
    simp [run_hunks]
  | cons h rest ih =>
    intro s hs0 hf hc
    rw [run_hunks, if_neg (by simp [hs0])] at hf hc ⊢
    have hstepc : (step_hunk opts s h).conflicted = false := by
      by_contra hx
      rw [run_hunks_conflicted_mono opts rest _ (by revert hx; cases (step_hunk opts s h).conflicted <;> simp)] at hc
      cases hc
    have hstepf : (step_hunk opts s h).failed = false := by
      by_contra hx
      have hxt : (step_hunk opts s h).failed = true := by
        revert hx; cases (step_hunk opts s h).failed <;> simp
      rw [run_hunks_of_failed opts _ rest hxt] at hf
      rw [hxt] at hf
      cases hf
    obtain ⟨hoff, -⟩ := step_hunk_success opts s h hstepf hstepc
    rw [ih _ hstepf hf hc, hoff]
    simp [List.sum_cons]
    ring

/-- C3 witness: two hunks applied successfully accumulate offset
`(1 - 0) + (0 - 1) = 0`; here a single-insertion hunk then a
single-deletion hunk on a concrete buffer. -/
theorem offset_accounting_witness :
    (run_hunks { ignore_ws := false, fuzzy := false, fuzzy_window := 200, conflict_mode := false }
      { out_lines := [lc "a", lc "b", lc ""], line_offset := 0, hunks_applied := 0,
        lines_added := 0, lines_removed := 0, failed := false, conflicted := false }
      [{ old_start := 1, old_count := 0, new_start := 1, new_count := 1,
         header := lc "@@ -1,0 +1,1 @@", lines := [('+', lc "z")] },
       { old_start := 2, old_count := 1, new_start := 3, new_count := 0,
         header := lc "@@ -2,1 +3,0 @@", lines := [('-', lc "b")] }]).line_offset
      = 0 + (((1 : Int) - 0) + ((0 : Int) - 1) + 0) := by
  have := offset_accounting
    { ignore_ws := false, fuzzy := false, fuzzy_window := 200, conflict_mode := false }
    [{ old_start := 1, old_count := 0, new_start := 1, new_count := 1,
       header := lc "@@ -1,0 +1,1 @@", lines := [('+', lc "z")] },
     { old_start := 2, old_count := 1, new_start := 3, new_count := 0,
       header := lc "@@ -2,1 +3,0 @@", lines := [('-', lc "b")] }]
    { out_lines := [lc "a", lc "b", lc ""], line_offset := 0, hunks_applied := 0,
      lines_added := 0, lines_removed := 0, failed := false, conflicted := false }
    rfl (by decide) (by decide)
  simpa using this

/-- The lexicographic key order `(abs(p - pos), p)` as a proposition. -/
def closerLe (pos a b : Nat) : Prop :=
  Nat.dist a pos < Nat.dist b pos ∨ (Nat.dist a pos = Nat.dist b pos ∧ a ≤ b)

lemma closerThan_iff (pos a b : Nat) :
    closerThan pos a b = true ↔
      (Nat.dist a pos < Nat.dist b pos ∨ (Nat.dist a pos = Nat.dist b pos ∧ a < b)) := by
  simp [closerThan]

lemma closerLe_trans {pos a b c : Nat} (h1 : closerLe pos a b) (h2 : closerLe pos b c) :
    closerLe pos a c := by
  unfold closerLe at *
  omega

/-- The `foldl` argmin step result is an element of the candidate list. -/
lemma pick_fold_mem (pos : Nat) :
    ∀ (rest : List Nat) (c : Nat),
      rest.foldl (fun best p => if closerThan pos p best then p else best) c ∈ c :: rest := by
  intro rest
  induction rest with
  | nil => intro c; exact List.mem_singleton.mpr rfl
  | cons p ps ih =>
    intro c
    rw [List.foldl_cons]
    by_cases hcl : closerThan pos p c = true
    · rw [if_pos hcl]
      exact List.mem_cons_of_mem c (ih p)
    · rw [if_neg hcl]
      rcases List.mem_cons.mp (ih c) with hh | ht
      · exact List.mem_cons.mpr (Or.inl hh)
      · exact List.mem_cons.mpr (Or.inr (List.mem_cons.mpr (Or.inr ht)))

/-- The `foldl` argmin step result is minimal in the key order among the
start value and all list elements. -/
lemma pick_fold_min (pos : Nat) :
    ∀ (rest : List Nat) (c : Nat),
      closerLe pos (rest.foldl (fun best p => if closerThan pos p best then p else best) c) c ∧
      ∀ x ∈ rest,
        closerLe pos (rest.foldl (fun best p => if closerThan pos p best then p else best) c) x := by
  intro rest
  induction rest with
  | nil =>
    intro c
    exact ⟨Or.inr ⟨rfl, le_refl c⟩, by intro x hx; cases hx⟩
  | cons p ps ih =>
    intro c
    rw [List.foldl_cons]
    by_cases hcl : closerThan pos p c = true
    · rw [if_pos hcl]
      obtain ⟨ih1, ih2⟩ := ih p
      have hpc := (closerThan_iff pos p c).mp hcl
      refine ⟨closerLe_trans ih1 (by unfold closerLe; simp only [Nat.dist] at *; omega), ?_⟩
      intro x hx
      rcases List.mem_cons.mp hx with rfl | hxm
      · exact ih1
      · exact ih2 x hxm
    · rw [if_neg hcl]
      obtain ⟨ih1, ih2⟩ := ih c
      have hcp : closerLe pos c p := by
        have hnp := (closerThan_iff pos p c).not.mp (by simp [hcl])
        unfold closerLe
        simp only [Nat.dist] at *
        omega
      refine ⟨ih1, ?_⟩
      intro x hx
      rcases List.mem_cons.mp hx with rfl | hxm
      · exact closerLe_trans ih1 hcp
      · exact ih2 x hxm

lemma pick_closest_none_iff (pos : Nat) (l : List Nat) :
    pick_closest pos l = none ↔ l = [] := by
  cases l <;> simp [pick_closest]

lemma pick_closest_spec (pos : Nat) (l : List Nat) (c : Nat)
    (h : pick_closest pos l = some c) :
    c ∈ l ∧ ∀ x ∈ l, closerLe pos c x := by
  cases l with
  | nil => cases h
  | cons a rest =>
    simp only [pick_closest, Option.some.injEq] at h
    subst h
    refine ⟨pick_fold_mem pos rest a, ?_⟩
    intro x hx
    obtain ⟨h1, h2⟩ := pick_fold_min pos rest a
    rcases List.mem_cons.mp hx with rfl | hxm
    · exact h1
    · exact h2 x hxm

/-- Membership in the fuzzy candidate list is exactly: in the inclusive
window and anchors match. -/
lemma mem_fuzzy_candidates (lines : List Text) (h : Hunk) (iw : Bool)
    (start stop p : Nat) :
    p ∈ fuzzy_candidates lines h iw start stop ↔
      (start ≤ p ∧ p ≤ stop ∧ hunk_anchors_match lines h p iw = true) := by
  unfold fuzzy_candidates
  rw [List.mem_filter, List.mem_range'_1]
  constructor
  · rintro ⟨⟨hs, hlt⟩, hm⟩
    exact ⟨hs, by omega, hm⟩
  · rintro ⟨hs, hle, hm⟩
    exact ⟨⟨hs, by omega⟩, hm⟩

/-- C4: when fuzzy search is enabled and the strict anchor check at the
clamped position `pos = min expected (length buffer)` fails, the locator
reports no match iff no position in the inclusive window
`[pos - window, min (length buffer) (pos + window)]` matches, and otherwise
returns a matching window position minimizing `(abs (p - pos), p)`
lexicographically — so between two equally distant candidates the smaller
index wins. -/
theorem locate_fuzzy_characterization (lines : List Text) (h : Hunk) (iw : Bool)
    (e w : Nat)
    (hstrict : hunk_anchors_match lines h (min e lines.length) iw = false) :
    (locate_hunk_position lines h e iw true w = none ↔
      ∀ p, min e lines.length - w ≤ p →
        p ≤ min lines.length (min e lines.length + w) →
        hunk_anchors_match lines h p iw = false) ∧
    (∀ c, locate_hunk_position lines h e iw true w = some c →
      min e lines.length - w ≤ c ∧
      c ≤ min lines.length (min e lines.length + w) ∧
      hunk_anchors_match lines h c iw = true ∧
      ∀ p, min e lines.length - w ≤ p →
        p ≤ min lines.length (min e lines.length + w) →
        hunk_anchors_match lines h p iw = true →
        (Nat.dist c (min e lines.length) < Nat.dist p (min e lines.length) ∨
          (Nat.dist c (min e lines.length) = Nat.dist p (min e lines.length) ∧ c ≤ p))) := by
  have hloc : locate_hunk_position lines h e iw true w =
      pick_closest (min e lines.length)
        (fuzzy_candidates lines h iw (min e lines.length - w)
          (min lines.length (min e lines.length + w))) := by
    simp [locate_hunk_position, hstrict]
  constructor
  · rw [hloc, pick_closest_none_iff, List.eq_nil_iff_forall_not_mem]
    constructor
    · intro hnone p hlo hhi
      by_contra hmt
      exact hnone p ((mem_fuzzy_candidates lines h iw _ _ p).mpr
        ⟨hlo, hhi, by revert hmt; cases hunk_anchors_match lines h p iw <;> simp⟩)
    · intro hall p hp
      obtain ⟨hlo, hhi, hm⟩ := (mem_fuzzy_candidates lines h iw _ _ p).mp hp
      rw [hall p hlo hhi] at hm
      cases hm
  · intro c hc
    rw [hloc] at hc
    obtain ⟨hmem, hmin⟩ := pick_closest_spec _ _ _ hc
    obtain ⟨hlo, hhi, hm⟩ := (mem_fuzzy_candidates lines h iw _ _ c).mp hmem
    refine ⟨hlo, hhi, hm, ?_⟩
    intro p hplo hphi hpm
    exact hmin p ((mem_fuzzy_candidates lines h iw _ _ p).mpr ⟨hplo, hphi, hpm⟩)

/-- C4 witness: buffer `["x", "a", "x", "a"]`, anchor `"a"`, expected
position `2` where the strict anchor check fails; candidates `1` and `3`
are equally distant, the locator returns `1`, and the theorem's minimality
conclusion holds of `1` against `3`. -/
theorem locate_fuzzy_characterization_witness :
    Nat.dist 1 2 < Nat.dist 3 2 ∨ (Nat.dist 1 2 = Nat.dist 3 2 ∧ 1 ≤ 3) := by
  have hch := (locate_fuzzy_characterization [lc "x", lc "a", lc "x", lc "a"]
    { old_start := 3, old_count := 1, new_start := 3, new_count := 1,
      header := lc "@@ -3 +3 @@", lines := [(' ', lc "a")] } false 2 2 (by decide))
  obtain ⟨-, -, -, hmin⟩ := hch.2 1 (by decide)
  exact hmin 3 (by decide) (by decide) (by decide)

/-- The lookahead of `PatchInputNormalizer._split_classic_blocks`
(normalizer.py lines 140-149): scan `j` from `i+1` while
`j < min (i+60) len`, i.e. over at most the 59 lines that follow the
`--- ` line; a line starting `+++ ` confirms a file header, a line starting
`@@ ` breaks the scan unconfirmed. -/
def findPPP : Nat → List Text → Bool
  | 0, _ => false
  | _, [] => false
  | fuel + 1, l :: rest =>
    if startsWithT l (lc "+++ ") then true
    else if startsWithT l (lc "@@ ") then false
    else findPPP fuel rest

/-- The decision `found_ppp` for a `--- ` line given the lines after it. -/
def classic_header_starts_block (line : Text) (rest : List Text) : Bool :=
  startsWithT line (lc "--- ") && findPPP 59 rest

/-- Loop of `PatchInputNormalizer._split_classic_blocks` (normalizer.py
lines 126-167) over the remaining lines, carrying the current block's lines
`cur` (empty = no block open) and the emitted blocks.  A confirmed `--- `
header closes the current block and opens a new one; any other line is
appended to the open block or discarded as leading noise. -/
def split_classic_aux : List Text → List Text → List (List Text) → List (List Text)
  | [], cur, blocks => if cur.isEmpty then blocks else blocks ++ [cur]
  | line :: rest, cur, blocks =>
    if classic_header_starts_block line rest then
      split_classic_aux rest [line] (if cur.isEmpty then blocks else blocks ++ [cur])
    else
      split_classic_aux rest (if cur.isEmpty then cur else cur ++ [line]) blocks

/-- `PatchInputNormalizer._split_classic_blocks`: split the normalized text
on LF and run the loop; each emitted block's text is its lines joined by LF
plus a trailing LF. -/
def split_classic_blocks (text : Text) : List (List Text) :=
  split_classic_aux (splitNL text) [] []

/-- The lookahead succeeds iff some `+++ ` line occurs among the scanned
window with no `@@ ` line before it. -/
lemma findPPP_iff : ∀ (n : Nat) (ls : List Text),
    findPPP n ls = true ↔
      ∃ j, j < n ∧ j < ls.length ∧ startsWithT (ls.getD j []) (lc "+++ ") = true ∧
        ∀ k, k < j → startsWithT (ls.getD k []) (lc "@@ ") = false := by
  intro n
  induction n with
  | zero =>
    intro ls
    simp [findPPP]
  | succ m ih =>
    intro ls
    cases ls with
    | nil => simp [findPPP]
    | cons l rest =>
      by_cases hp : startsWithT l (lc "+++ ") = true
      · simp only [findPPP, hp, if_true, true_iff]
        exact ⟨0, by omega, by simp, by simpa using hp, by intro k hk; omega⟩
      · by_cases ha : startsWithT l (lc "@@ ") = true
        · simp only [findPPP, if_neg hp, if_pos ha]
          constructor
          · intro h
            cases h
          rintro ⟨j, hj1, hj2, hj3, hj4⟩
          cases j with
          | zero => rw [List.getD_cons_zero] at hj3; exact absurd hj3 hp
          | succ j1 =>
            have h0 := hj4 0 (by omega)
            rw [List.getD_cons_zero] at h0
            rw [ha] at h0
            cases h0
        · simp only [findPPP, if_neg hp, if_neg ha]
          rw [ih rest]
          constructor
          · rintro ⟨j, hj1, hj2, hj3, hj4⟩
            refine ⟨j + 1, by omega, by simp; omega, by simpa using hj3, ?_⟩
            intro k hk
            cases k with
            | zero =>
              rw [List.getD_cons_zero]
              revert ha
              cases startsWithT l (lc "@@ ") <;> simp
            | succ k1 => rw [List.getD_cons_succ]; exact hj4 k1 (by omega)
          · rintro ⟨j, hj1, hj2, hj3, hj4⟩
            cases j with
            | zero =>
              rw [List.getD_cons_zero] at hj3
              exact absurd hj3 hp
            | succ j1 =>
              refine ⟨j1, by omega, by simp at hj2; omega, by simpa using hj3, ?_⟩
              intro k hk
              have hks := hj4 (k + 1) (by omega)
              rw [List.getD_cons_succ] at hks
              exact hks

/-- C7: in classic block splitting, a line starts a new block iff it begins
with `--- ` and some line beginning with `+++ ` occurs within the 60-line
lookahead window (the scanned positions are the up-to-59 lines following the
`--- ` line, matching `while j < min(i + 60, len(lines))` with `j` from
`i+1`) with no intervening line beginning with `@@ `; when it does, the
current block (if open) is emitted and a new block starts with this line;
otherwise the line is appended to the open block, or discarded as leading
noise when no block is open (so all lines before the first block are
discarded). -/
theorem classic_block_split_rule (line : Text) (rest : List Text)
    (cur : List Text) (blocks : List (List Text)) :
    (classic_header_starts_block line rest = true ↔
      startsWithT line (lc "--- ") = true ∧
      ∃ j, j < 59 ∧ j < rest.length ∧
        startsWithT (rest.getD j []) (lc "+++ ") = true ∧
        ∀ k, k < j → startsWithT (rest.getD k []) (lc "@@ ") = false) ∧
    (classic_header_starts_block line rest = true →
      split_classic_aux (line :: rest) cur blocks =
        split_classic_aux rest [line] (if cur.isEmpty then blocks else blocks ++ [cur])) ∧
    (classic_header_starts_block line rest = false →
      split_classic_aux (line :: rest) cur blocks =
        split_classic_aux rest (if cur.isEmpty then cur else cur ++ [line]) blocks) := by
  refine ⟨?_, ?_, ?_⟩
  · unfold classic_header_starts_block
    rw [Bool.and_eq_true, findPPP_iff]
  · intro hdec
    rw [split_classic_aux, if_pos hdec]
  · intro hdec
    rw [split_classic_aux, if_neg (by simp [hdec])]

/-- C7 witness: a `--- ` line with `+++ ` two lines later (no `@@ ` between)
starts a new block, emitting the previously open block. -/
theorem classic_block_split_rule_witness :
    split_classic_aux (lc "--- a.txt" :: [lc "junk", lc "+++ b.txt"]) [lc "old"] [] =
      split_classic_aux [lc "junk", lc "+++ b.txt"] [lc "--- a.txt"]
        (if ([lc "old"] : List Text).isEmpty then ([] : List (List Text)) else [] ++ [[lc "old"]]) :=
  (classic_block_split_rule (lc "--- a.txt") [lc "junk", lc "+++ b.txt"]
    [lc "old"] []).2.1 (by decide)

/-! ## Parser and normalizer block machinery (parser.py, normalizer.py) -/

/-- A normalizer file block as consumed by the parser: its raw text
(terminated by LF) and the recovered `Index:` path when present.  The
`header`/`dialect`/binary-indicator fields of the source dict are not read
by the parser and are omitted. -/
structure Block where
  text : Text
  index_path : Option Text
deriving DecidableEq

/-- `models.FilePatch`. -/
structure FilePatch where
  old_path : Text
  new_path : Text
  display_path : Text
  operation : String
  hunks : List Hunk
  is_binary : Bool
  binary_reason : String
  metadata : Metadata
deriving DecidableEq

/-- `models.PatchSet`. -/
structure PatchSet where
  dialect : String
  files : List FilePatch
deriving DecidableEq

/-- Python `str.strip()`. -/
def pyStrip (s : Text) : Text := rstripBy pySpace (s.dropWhile pySpace)

/-- `UnifiedDiffParser._strip_prefix_ab` (parser.py lines 40-46). -/
def strip_prefix_ab (p : Text) : Text :=
  let q := pyStrip p
  if startsWithT q (lc "a/") = true ∧ 2 < q.length then q.drop 2
  else if startsWithT q (lc "b/") = true ∧ 2 < q.length then q.drop 2
  else q

/-- `UnifiedDiffParser._parse_path_from_header_line` (parser.py lines
48-56); both prefixes `"--- "` and `"+++ "` have length 4. -/
def parse_path_from_header_line (line : Text) : Text :=
  let rest := line.drop 4
  if rest.contains '\t' then pyStrip (rest.takeWhile (· ≠ '\t'))
  else pyStrip rest

/-- Decimal digits to `Nat` (Python `int`). -/
def digitsToNat (d : Text) : Nat := d.foldl (fun n c => n * 10 + (c.toNat - 48)) 0

/-- Matcher for `RE_HUNK = ^@@\s+\-(\d+)(?:,(\d+))?\s+\+(\d+)(?:,(\d+))?\s+@@(.*)$`
(parser.py line 17).  Greedy scanning equals the regex here because a
backtracked shorter `\d+` always leaves a digit that neither `,(\d+)` nor
`\s+` can consume.  Returns `(old_start, old_count?, new_start, new_count?, tail)`. -/
def match_hunk_header (ln : Text) : Option (Nat × Option Nat × Nat × Option Nat × Text) :=
  if startsWithT ln (lc "@@") = false then none else
  let s1 := ln.drop 2
  if (s1.takeWhile pySpace).isEmpty then none else
  match s1.dropWhile pySpace with
  | '-' :: s3 =>
    let d1 := s3.takeWhile (·.isDigit)
    if d1.isEmpty then none else
    let s4 := s3.dropWhile (·.isDigit)
    let step1 : Option Nat × Text :=
      match s4 with
      | ',' :: s4b =>
        let d2 := s4b.takeWhile (·.isDigit)
        if d2.isEmpty then (none, s4) else (some (digitsToNat d2), s4b.dropWhile (·.isDigit))
      | _ => (none, s4)
    let oc := step1.1
    let s5 := step1.2
    if (s5.takeWhile pySpace).isEmpty then none else
    match s5.dropWhile pySpace with
    | '+' :: s6 =>
      let d3 := s6.takeWhile (·.isDigit)
      if d3.isEmpty then none else
      let s7 := s6.dropWhile (·.isDigit)
      let step2 : Option Nat × Text :=
        match s7 with
        | ',' :: s7b =>
          let d4 := s7b.takeWhile (·.isDigit)
          if d4.isEmpty then (none, s7) else (some (digitsToNat d4), s7b.dropWhile (·.isDigit))
        | _ => (none, s7)
      let nc := step2.1
      let s8 := step2.2
      if (s8.takeWhile pySpace).isEmpty then none else
      match s8.dropWhile pySpace with
      | '@' :: '@' :: tail => some (digitsToNat d1, oc, digitsToNat d3, nc, tail)
      | _ => none
    | _ => none
  | _ => none

/-- `UnifiedDiffParser._parse_hunks_from` (parser.py lines 233-274):
`current` is the open hunk, `acc` the finished ones. -/
def parse_hunks_from : List Text → Option Hunk → List Hunk → List Hunk
  | [], current, acc => acc ++ current.toList
  | ln :: rest, current, acc =>
    match match_hunk_header ln with
    | some (os, oc, ns, nc, _) =>
      parse_hunks_from rest
        (some { old_start := os, old_count := oc.getD 1, new_start := ns,
                new_count := nc.getD 1, header := pyStrip ln, lines := [] })
        (acc ++ current.toList)
    | none =>
      match current with
      | none => parse_hunks_from rest none acc
      | some cur =>
        if startsWithT ln (lc "\\ No newline at end of file") then
          parse_hunks_from rest (some cur) acc
        else
          match ln with
          | [] => parse_hunks_from rest (some { cur with lines := cur.lines ++ [(' ', [])] }) acc
          | t :: body =>
            if t = ' ' ∨ t = '+' ∨ t = '-' then
              parse_hunks_from rest (some { cur with lines := cur.lines ++ [(t, body)] }) acc
            else
              parse_hunks_from rest (some { cur with lines := cur.lines ++ [(' ', ln)] }) acc

/-- The binary-indicator scan shared by the three block parsers: the first
line starting with `GIT binary patch` or `Binary files `, with the GIT
pattern checked first on each line. -/
def binary_indicator_line (ls : List Text) : Option Text :=
  ls.find? (fun ln =>
    startsWithT ln (lc "GIT binary patch") || startsWithT ln (lc "Binary files "))

/-- The reason string for a binary indicator line. -/
def binary_reason_of (ln : Text) : String :=
  if startsWithT ln (lc "GIT binary patch") then "GIT binary patch unsupported"
  else "Binary files differ (unsupported)"

/-- Scan to the first `+++ ` line; returns its parsed path and the lines
after it (`(none, [])` when the scan exhausts the block). -/
def seek_ppp : List Text → Option Text × List Text
  | [] => (none, [])
  | ln :: rest =>
    if startsWithT ln (lc "+++ ") then (some (parse_path_from_header_line ln), rest)
    else seek_ppp rest

/-- `UnifiedDiffParser._parse_classic_block` (parser.py lines 190-231). -/
def parse_classic_block (ls : List Text) : Option FilePatch :=
  match binary_indicator_line ls with
  | some ln =>
    some { old_path := lc "(unknown)", new_path := lc "(unknown)",
           display_path := lc "(unknown)", operation := "modify", hunks := [],
           is_binary := true, binary_reason := binary_reason_of ln, metadata := [] }
  | none =>
    match ls.dropWhile (fun l => !startsWithT l (lc "--- ")) with
    | [] => none
    | l0 :: restl =>
      let old_hdr := parse_path_from_header_line l0
      let old_path := if old_hdr = lc "/dev/null" then lc "/dev/null" else strip_prefix_ab old_hdr
      match seek_ppp restl with
      | (none, _) => none
      | (some new_hdr, after) =>
        let new_path := if new_hdr = lc "/dev/null" then lc "/dev/null" else strip_prefix_ab new_hdr
        let op := infer_operation old_path new_path []
        let display := strip_prefix_ab (if new_path ≠ lc "/dev/null" then new_path else old_path)
        some { old_path := old_path, new_path := new_path, display_path := display,
               operation := op, hunks := parse_hunks_from after none [],
               is_binary := false, binary_reason := "", metadata := [] }

/-- Matcher for `RE_DIFF_GIT = ^diff --git (.+?) (.+?)\s*$` (parser.py line
16).  The lazy groups make group 1 the text before the first space of the
remainder and group 2 the remainder after it stripped of trailing
whitespace (the shortest non-empty prefix leaving an all-whitespace tail). -/
def match_diff_git (ln : Text) : Option (Text × Text) :=
  if startsWithT ln (lc "diff --git ") = false then none else
  let rem := ln.drop 11
  let g1 := rem.takeWhile (· ≠ ' ')
  match rem.dropWhile (· ≠ ' ') with
  | ' ' :: rem2 =>
    if g1.isEmpty then none
    else
      let g2 := rstripBy pySpace rem2
      if g2.isEmpty then (if rem2.isEmpty then none else some (g1, rem2.take 1))
      else some (g1, g2)
  | _ => none

/-- The metadata collection loop of `_parse_git_block` (parser.py lines
99-121): recognized lines update the bag; a `--- ` line stops the loop with
its path; anything else is skipped. -/
def git_meta_loop : List Text → Metadata → Metadata × Option Text × List Text
  | [], md => (md, none, [])
  | ln :: rest, md =>
    if startsWithT ln (lc "index ") then git_meta_loop rest (mdSet md "index" (pyStrip ln))
    else if startsWithT ln (lc "old mode ") then git_meta_loop rest (mdSet md "old_mode" (pyStrip ln))
    else if startsWithT ln (lc "new mode ") then git_meta_loop rest (mdSet md "new_mode" (pyStrip ln))
    else if startsWithT ln (lc "new file mode ") then
      git_meta_loop rest (mdSet md "new_file_mode" (pyStrip ln))
    else if startsWithT ln (lc "deleted file mode ") then
      git_meta_loop rest (mdSet md "deleted_file_mode" (pyStrip ln))
    else if startsWithT ln (lc "similarity index ") then
      git_meta_loop rest (mdSet md "similarity_index" (pyStrip ln))
    else if startsWithT ln (lc "rename from ") then
      git_meta_loop rest (mdSet md "rename_from" (pyStrip (ln.drop 12)))
    else if startsWithT ln (lc "rename to ") then
      git_meta_loop rest (mdSet md "rename_to" (pyStrip (ln.drop 10)))
    else if startsWithT ln (lc "--- ") then (md, some (parse_path_from_header_line ln), rest)
    else git_meta_loop rest md

/-- `UnifiedDiffParser._parse_git_block` (parser.py lines 70-144). -/
def parse_git_block (ls : List Text) : Option FilePatch :=
  match ls with
  | [] => none
  | l0 :: lrest =>
    match match_diff_git l0 with
    | none => none
    | some (a_raw, b_raw) =>
      let a_path := pyStrip a_raw
      let b_path := pyStrip b_raw
      let old0 := strip_prefix_ab a_path
      let new0 := strip_prefix_ab b_path
      let md0 : Metadata := [("diff_git", l0)]
      match binary_indicator_line ls with
      | some bln =>
        let display := strip_prefix_ab (if new0.isEmpty then old0 else new0)
        some { old_path := old0, new_path := new0, display_path := display,
               operation := "modify", hunks := [], is_binary := true,
               binary_reason := binary_reason_of bln, metadata := md0 }
      | none =>
        let mres := git_meta_loop lrest md0
        let md := mres.1
        let old_hdr := mres.2.1
        let rest1 := mres.2.2
        let pres := if old_hdr.isSome then seek_ppp rest1 else (none, rest1)
        let new_hdr := pres.1
        let rest2 := pres.2
        let old_path := match old_hdr with
          | some hh => if hh = lc "/dev/null" then lc "/dev/null" else strip_prefix_ab hh
          | none => old0
        let new_path := match new_hdr with
          | some hh => if hh = lc "/dev/null" then lc "/dev/null" else strip_prefix_ab hh
          | none => new0
        let op := infer_operation old_path new_path md
        let display := strip_prefix_ab (if new_path ≠ lc "/dev/null" then new_path else old_path)
        some { old_path := old_path, new_path := new_path, display_path := display,
               operation := op, hunks := parse_hunks_from rest2 none [],
               is_binary := false, binary_reason := "", metadata := md }

/-- `UnifiedDiffParser._parse_index_block` (parser.py lines 146-188); the
metadata bag records the index path when one was recovered (the source
stores a possibly-`None` value under `index_path`). -/
def parse_index_block (ls : List Text) (index_path : Option Text) : Option FilePatch :=
  let md : Metadata := match index_path with
    | some p => [("index_path", p)]
    | none => []
  match binary_indicator_line ls with
  | some bln =>
    let display := match index_path with
      | some p => if p.isEmpty then lc "(unknown)" else p
      | none => lc "(unknown)"
    some { old_path := display, new_path := display, display_path := display,
           operation := "modify", hunks := [], is_binary := true,
           binary_reason := binary_reason_of bln, metadata := md }
  | none =>
    match ls.dropWhile (fun l => !startsWithT l (lc "--- ")) with
    | [] => none
    | l0 :: restl =>
      let old_hdr := parse_path_from_header_line l0
      match seek_ppp restl with
      | (none, _) => none
      | (some new_hdr, after) =>
        let old_path := if old_hdr = lc "/dev/null" then lc "/dev/null" else strip_prefix_ab old_hdr
        let new_path := if new_hdr = lc "/dev/null" then lc "/dev/null" else strip_prefix_ab new_hdr
        let op := infer_operation old_path new_path md
        let display := strip_prefix_ab (if new_path ≠ lc "/dev/null" then new_path else old_path)
        some { old_path := old_path, new_path := new_path, display_path := display,
               operation := op, hunks := parse_hunks_from after none [],
               is_binary := false, binary_reason := "", metadata := md }

/-- `UnifiedDiffParser.parse` (parser.py lines 19-38): per-block dispatch on
the dialect; blocks whose parser returns `None` are skipped. -/
def parse (dialect : String) (blocks : List Block) : PatchSet :=
  { dialect := dialect,
    files := blocks.filterMap (fun b =>
      let ls := splitNL b.text
      if dialect = "Git Unified" then parse_git_block ls
      else if dialect = "Index style" then parse_index_block ls b.index_path
      else parse_classic_block ls) }

/-- Make a block record from collected lines (`"\n".join(cur) + "\n"`). -/
def mk_block (cur : List Text) (ip : Option Text) : Block :=
  { text := joinNL cur ++ lc "\n", index_path := ip }

/-- Loop of `PatchInputNormalizer._split_git_blocks` (normalizer.py lines
82-101): a `diff --git ` line closes the current block and opens a new one;
preamble before the first is dropped. -/
def split_git_aux : List Text → List Text → List Block → List Block
  | [], cur, blocks => if cur.isEmpty then blocks else blocks ++ [mk_block cur none]
  | line :: rest, cur, blocks =>
    if startsWithT line (lc "diff --git ") then
      split_git_aux rest [line] (if cur.isEmpty then blocks else blocks ++ [mk_block cur none])
    else
      split_git_aux rest (if cur.isEmpty then cur else cur ++ [line]) blocks

def split_git_blocks (text : Text) : List Block := split_git_aux (splitNL text) [] []

/-- Loop of `PatchInputNormalizer._split_index_blocks` (normalizer.py lines
103-124): an `Index: ` line closes the current block (recording the
previous index path) and opens a new one with the stripped path. -/
def split_index_aux : List Text → List Text → Option Text → List Block → List Block
  | [], cur, ip, blocks => if cur.isEmpty then blocks else blocks ++ [mk_block cur ip]
  | line :: rest, cur, ip, blocks =>
    if startsWithT line (lc "Index: ") then
      split_index_aux rest [line] (some (pyStrip (line.drop 7)))
        (if cur.isEmpty then blocks else blocks ++ [mk_block cur ip])
    else
      split_index_aux rest (if cur.isEmpty then cur else cur ++ [line]) ip blocks

def split_index_blocks (text : Text) : List Block := split_index_aux (splitNL text) [] none []

/-- `PatchInputNormalizer.normalize` (normalizer.py lines 26-74): normalize
the text, detect the dialect on it, and split into blocks.  The per-block
`has_binary_indicator` flag is computed in the source but never read by the
parser, and is omitted here. -/
def normalize (raw : Text) : Text × String × List Block :=
  let t := normalize_text raw
  let lines := splitNL t
  let has_hunk := lines.any (fun l => startsWithT l (lc "@@"))
  let has_git := lines.any (fun l => startsWithT l (lc "diff --git "))
  let has_index := lines.any (fun l => startsWithT l (lc "Index: "))
  let has_headers := lines.any (fun l => startsWithT l (lc "--- "))
    && lines.any (fun l => startsWithT l (lc "+++ "))
  let dialect := if has_git then "Git Unified"
    else if has_index then "Index style"
    else if has_headers && has_hunk then "Classic Unified"
    else if has_hunk then "Classic Unified"
    else "Classic Unified"
  let blocks := if has_git then split_git_blocks t
    else if has_index then split_index_blocks t
    else (split_classic_blocks t).map (fun cur => mk_block cur none)
  (t, dialect, blocks)

/-- The per-file loop of `PatchApplier.preview_apply` (applier.py lines
154-227) as a pure function: the filesystem is replaced by the baseline map
`display_path -> file text` that preview reads, preflight (which only gates
on the filesystem) is omitted, and `partial_apply_per_file_override` is
false, so the first failed file fails the preview (`none`).  Binary files
are skipped under `skip_bin` and blocking otherwise; a delete stores `""`. -/
def preview_files_loop (baseline : List (Text × Text)) (opts : ApplyOptions)
    (skip_bin : Bool) : List FilePatch → List (Text × Text) → Option (List (Text × Text))
  | [], outs => some outs
  | fp :: rest, outs =>
    if fp.is_binary then
      if skip_bin then preview_files_loop baseline opts skip_bin rest outs
      else none
    else
      let original := (baseline.lookup fp.display_path).getD []
      let st := apply_filepatch_in_memory fp.operation original fp.hunks opts
      if st.failed = true ∧ ¬(opts.conflict_mode = true ∧ st.conflicted = true) then none
      else
        preview_files_loop baseline opts skip_bin rest
          (outs ++ [(fp.display_path,
            if fp.operation = "delete" then [] else joinNL st.out_lines)])

/-- Preview of a whole patch set against an in-memory baseline: the
`outputs` summary map, or `none` when preview fails. -/
def preview_outputs_pure (baseline : List (Text × Text)) (ps : PatchSet)
    (opts : ApplyOptions) (skip_bin : Bool) : Option (List (Text × Text)) :=
  preview_files_loop baseline opts skip_bin ps.files []

/-! ### CPython `difflib` as called by diffgen.py

`DiffGenerator.generate_unified_for_file` calls
`difflib.unified_diff(a, b, fromfile, tofile, lineterm="\n")`, i.e.
`SequenceMatcher(None, a, b)` with no junk predicate: `bjunk = ∅`, so the
junk-extension loops of `find_longest_match` never fire and are omitted;
the `autojunk` purge of popular elements applies only when
`len(b) >= 200`.  The port below follows CPython 3.11 `difflib.py`. -/

/-- `SequenceMatcher.__chain_b`: `b2j` maps an element to the increasing
list of its indices in `b`, with popular elements purged for large `b`. -/
def b2j_build : List Text → Nat → List (Text × List Nat) → List (Text × List Nat)
  | [], _, acc => acc
  | e :: rest, i, acc =>
    b2j_build rest (i + 1)
      (if (acc.lookup e).isSome then
        acc.map (fun kv => if kv.1 = e then (kv.1, kv.2 ++ [i]) else kv)
      else acc ++ [(e, [i])])

def b2j_of (b : List Text) : List (Text × List Nat) :=
  let m := b2j_build b 0 []
  if 200 ≤ b.length then
    let ntest := b.length / 100 + 1
    m.filter (fun kv => !(decide (ntest < kv.2.length)))
  else m

/-- Best-match candidate state of `find_longest_match`. -/
structure FLMState where
  besti : Nat
  bestj : Nat
  bestsize : Nat
deriving DecidableEq

abbrev J2Len := List (Nat × Nat)

/-- Inner loop of `find_longest_match` over `b2j[a[i]]` (an increasing
index list): `j < blo` is skipped, `j >= bhi` breaks; `k` extends the
diagonal ending at `(i-1, j-1)` (Python's `j2len.get(j-1, 0)` reads key
`-1`, hence `0`, when `j = 0`).  Python's `i-k+1`/`j-k+1` are written
`i+1-k`/`j+1-k`: `k ≤ i+1` and `k ≤ j+1` always, so the values agree and
`Nat` subtraction never truncates. -/
def flm_inner (blo bhi i : Nat) (j2len : J2Len) :
    List Nat → J2Len → FLMState → J2Len × FLMState
  | [], newj2len, st => (newj2len, st)
  | j :: js, newj2len, st =>
    if j < blo then flm_inner blo bhi i j2len js newj2len st
    else if bhi ≤ j then (newj2len, st)
    else
      let k := (if j = 0 then 0 else ((j2len.lookup (j - 1)).getD 0)) + 1
      let st2 := if st.bestsize < k then
        { besti := i + 1 - k, bestj := j + 1 - k, bestsize := k } else st
      flm_inner blo bhi i j2len js (newj2len ++ [(j, k)]) st2

/-- Outer loop of `find_longest_match` over `i in range(alo, ahi)`,
threading `j2len`; the fuel argument counts the remaining iterations. -/
def flm_outer (a : List Text) (b2j : List (Text × List Nat)) (blo bhi : Nat) :
    Nat → Nat → J2Len → FLMState → FLMState
  | 0, _, _, st => st
  | fuel + 1, i, j2len, st =>
    let js := match a[i]? with
      | some e => (b2j.lookup e).getD []
      | none => []
    let r := flm_inner blo bhi i j2len js [] st
    flm_outer a b2j blo bhi fuel (i + 1) r.1 r.2

/-- Backward extension loop (`while besti > alo and bestj > blo and
a[besti-1] == b[bestj-1]`); indices stay in range in every reachable state,
so `getD` never pads. -/
def extend_back (a b : List Text) (alo blo : Nat) : Nat → FLMState → FLMState
  | 0, st => st
  | fuel + 1, st =>
    if alo < st.besti ∧ blo < st.bestj ∧
        a.getD (st.besti - 1) [] = b.getD (st.bestj - 1) [] then
      extend_back a b alo blo fuel
        { besti := st.besti - 1, bestj := st.bestj - 1, bestsize := st.bestsize + 1 }
    else st

/-- Forward extension loop (`while besti+bestsize < ahi and ...`). -/
def extend_fwd (a b : List Text) (ahi bhi : Nat) : Nat → FLMState → FLMState
  | 0, st => st
  | fuel + 1, st =>
    if st.besti + st.bestsize < ahi ∧ st.bestj + st.bestsize < bhi ∧
        a.getD (st.besti + st.bestsize) [] = b.getD (st.bestj + st.bestsize) [] then
      extend_fwd a b ahi bhi fuel { st with bestsize := st.bestsize + 1 }
    else st

/-- `SequenceMatcher.find_longest_match` (no junk). -/
def find_longest_match (a b : List Text) (b2j : List (Text × List Nat))
    (alo ahi blo bhi : Nat) : FLMState :=
  let st1 := flm_outer a b2j blo bhi (ahi - alo) alo []
    { besti := alo, bestj := blo, bestsize := 0 }
  let st2 := extend_back a b alo blo st1.besti st1
  extend_fwd a b ahi bhi ahi st2

/-- The queue loop of `get_matching_blocks`.  Python pops from the back of
`queue`; the processing order only permutes `matching_blocks`, which is
sorted afterwards, so a front-stack is equivalent.  The fuel bounds the
number of pops (each popped region with a non-empty match splits into two
strictly smaller regions, so `2*(la+lb)+4` pops always suffice). -/
def gmb_loop (a b : List Text) (b2j : List (Text × List Nat)) :
    Nat → List (Nat × Nat × Nat × Nat) → List (Nat × Nat × Nat) → List (Nat × Nat × Nat)
  | 0, _, acc => acc
  | _ + 1, [], acc => acc
  | fuel + 1, (alo, ahi, blo, bhi) :: restq, acc =>
    let m := find_longest_match a b b2j alo ahi blo bhi
    if m.bestsize = 0 then gmb_loop a b b2j fuel restq acc
    else
      let q1 := if m.besti + m.bestsize < ahi ∧ m.bestj + m.bestsize < bhi then
        (m.besti + m.bestsize, ahi, m.bestj + m.bestsize, bhi) :: restq else restq
      let q2 := if alo < m.besti ∧ blo < m.bestj then (alo, m.besti, blo, m.bestj) :: q1 else q1
      gmb_loop a b b2j fuel q2 (acc ++ [(m.besti, m.bestj, m.bestsize)])

/-- Ascending lexicographic order on triples (`matching_blocks.sort()`). -/
def tripleLe (x y : Nat × Nat × Nat) : Bool :=
  x.1 < y.1 || (x.1 = y.1 && (x.2.1 < y.2.1 || (x.2.1 = y.2.1 && x.2.2 ≤ y.2.2)))

def insertTriple (x : Nat × Nat × Nat) : List (Nat × Nat × Nat) → List (Nat × Nat × Nat)
  | [] => [x]
  | y :: ys => if tripleLe x y then x :: y :: ys else y :: insertTriple x ys

def sortTriples : List (Nat × Nat × Nat) → List (Nat × Nat × Nat)
  | [] => []
  | x :: xs => insertTriple x (sortTriples xs)

/-- The adjacent-block collapse of `get_matching_blocks` (state
`(i1, j1, k1)` starts at `(0, 0, 0)`). -/
def collapse_adjacent : List (Nat × Nat × Nat) → Nat → Nat → Nat → List (Nat × Nat × Nat)
  | [], i1, j1, k1 => if k1 ≠ 0 then [(i1, j1, k1)] else []
  | (i2, j2, k2) :: rest, i1, j1, k1 =>
    if i1 + k1 = i2 ∧ j1 + k1 = j2 then collapse_adjacent rest i1 j1 (k1 + k2)
    else (if k1 ≠ 0 then [(i1, j1, k1)] else []) ++ collapse_adjacent rest i2 j2 k2

/-- `SequenceMatcher.get_matching_blocks`, dummy block included. -/
def get_matching_blocks (a b : List Text) : List (Nat × Nat × Nat) :=
  let blocks := gmb_loop a b (b2j_of b) (2 * (a.length + b.length) + 4)
    [(0, a.length, 0, b.length)] []
  collapse_adjacent (sortTriples blocks) 0 0 0 ++ [(a.length, b.length, 0)]

inductive DTag
  | replace
  | delete
  | insert
  | equal
deriving DecidableEq, Inhabited

abbrev Opcode := DTag × Nat × Nat × Nat × Nat

/-- `SequenceMatcher.get_opcodes`. -/
def opcodes_loop : List (Nat × Nat × Nat) → Nat → Nat → List Opcode
  | [], _, _ => []
  | (ai, bj, size) :: rest, i, j =>
    let pre : List Opcode :=
      if i < ai ∧ j < bj then [(DTag.replace, i, ai, j, bj)]
      else if i < ai then [(DTag.delete, i, ai, j, bj)]
      else if j < bj then [(DTag.insert, i, ai, j, bj)]
      else []
    let i2 := ai + size
    let j2 := bj + size
    pre ++ (if size ≠ 0 then [(DTag.equal, ai, i2, bj, j2)] else [])
      ++ opcodes_loop rest i2 j2

def get_opcodes (a b : List Text) : List Opcode :=
  opcodes_loop (get_matching_blocks a b) 0 0

/-- Fixups of `get_grouped_opcodes`: shrink a leading/trailing `equal` to
`n` context lines. -/
def fix_first (codes : List Opcode) (n : Nat) : List Opcode :=
  match codes with
  | (DTag.equal, i1, i2, j1, j2) :: rest =>
    (DTag.equal, max i1 (i2 - n), i2, max j1 (j2 - n), j2) :: rest
  | cs => cs

def fix_last : List Opcode → Nat → List Opcode
  | [], _ => []
  | [(DTag.equal, i1, i2, j1, j2)], n => [(DTag.equal, i1, min i2 (i1 + n), j1, min j2 (j1 + n))]
  | [c], _ => [c]
  | c :: rest, n => c :: fix_last rest n

/-- Grouping loop of `get_grouped_opcodes`: a large `equal` run ends the
current group (with `n` context lines) and seeds the next. -/
def group_loop : List Opcode → Nat → List Opcode → List (List Opcode)
  | [], _, group =>
    match group with
    | [] => []
    | [g] => if g.1 = DTag.equal then [] else [[g]]
    | gs => [gs]
  | (tag, i1, i2, j1, j2) :: rest, n, group =>
    if tag = DTag.equal ∧ n + n < i2 - i1 then
      (group ++ [(tag, i1, min i2 (i1 + n), j1, min j2 (j1 + n))]) ::
        group_loop rest n [(tag, max i1 (i2 - n), i2, max j1 (j2 - n), j2)]
    else group_loop rest n (group ++ [(tag, i1, i2, j1, j2)])

/-- `SequenceMatcher.get_grouped_opcodes(n)`. -/
def get_grouped_opcodes (a b : List Text) (n : Nat) : List (List Opcode) :=
  let codes0 := get_opcodes a b
  let codes1 := if codes0.isEmpty then [(DTag.equal, 0, 1, 0, 1)] else codes0
  group_loop (fix_last (fix_first codes1 n) n) n []

def natToText (n : Nat) : Text := Nat.toDigits 10 n

/-- `difflib._format_range_unified`. -/
def format_range_unified (start stop : Nat) : Text :=
  let beginning := start + 1
  let length := stop - start
  if length = 1 then natToText beginning
  else natToText (if length = 0 then beginning - 1 else beginning) ++ lc "," ++ natToText length

/-- The per-opcode content lines yielded by `unified_diff`: note they carry
NO line terminator — only the header lines receive `lineterm`. -/
def opcode_lines (a b : List Text) : Opcode → List Text
  | (DTag.equal, i1, i2, _, _) => ((a.drop i1).take (i2 - i1)).map (fun l => ' ' :: l)
  | (DTag.replace, i1, i2, j1, j2) =>
    ((a.drop i1).take (i2 - i1)).map (fun l => '-' :: l)
      ++ ((b.drop j1).take (j2 - j1)).map (fun l => '+' :: l)
  | (DTag.delete, i1, i2, _, _) => ((a.drop i1).take (i2 - i1)).map (fun l => '-' :: l)
  | (DTag.insert, _, _, j1, j2) => ((b.drop j1).take (j2 - j1)).map (fun l => '+' :: l)

/-- `difflib.unified_diff(a, b, fromfile, tofile, lineterm="\n")` with empty
dates and `n = 3`: the yielded strings in order. -/
def unified_diff (a b : List Text) (fromfile tofile : Text) : List Text :=
  match get_grouped_opcodes a b 3 with
  | [] => []
  | _ :: _ =>
    let groups := get_grouped_opcodes a b 3
    [lc "--- " ++ fromfile ++ lc "\n", lc "+++ " ++ tofile ++ lc "\n"] ++
      (groups.map (fun g =>
        let first := g.headD default
        let last := g.getLastD default
        (lc "@@ -" ++ format_range_unified first.2.1 last.2.2.1 ++ lc " +"
          ++ format_range_unified first.2.2.2.1 last.2.2.2.2 ++ lc " @@\n")
          :: (g.map (opcode_lines a b)).flatten)).flatten

/-- The line-list construction of `DiffGenerator.generate_unified_for_file`
(diffgen.py lines 24-31): fold CRLF/CR, split on LF, and append a trailing
empty line when the ORIGINAL text ends with LF and the split did not
already produce one (it always does, but the guard is embedded faithfully). -/
def difflib_lines_of (text : Text) : List Text :=
  let ls := splitNL (replCR (replCRLF text))
  if endsWithNL text = true ∧ (ls.isEmpty ∨ ls.getLast? ≠ some []) then ls ++ [[]] else ls

/-- `DiffGenerator.generate_unified_for_file` (diffgen.py lines 17-40):
`"".join(difflib.unified_diff(...))`. -/
def generate_unified_for_file (old_text new_text old_path new_path : Text) : Text :=
  (unified_diff (difflib_lines_of old_text) (difflib_lines_of new_text) old_path new_path).flatten

/-- Per-file step of `DiffGenerator.generate_unified_patchset` (diffgen.py
lines 45-68): binary files are skipped; delete diffs baseline against empty
with `/dev/null`, create diffs empty against the output, else baseline
against the output (falling back to the baseline).  Each appended block is
given a trailing LF if it lacks one. -/
def generate_patchset_loop (baseline outputs : List (Text × Text)) :
    List FilePatch → List Text
  | [] => []
  | fp :: rest =>
    if fp.is_binary then generate_patchset_loop baseline outputs rest
    else
      let display := fp.display_path
      let block :=
        if fp.operation = "delete" then
          generate_unified_for_file ((baseline.lookup display).getD []) []
            fp.old_path (lc "/dev/null")
        else if fp.operation = "create" then
          generate_unified_for_file [] ((outputs.lookup display).getD [])
            (lc "/dev/null") fp.new_path
        else
          let old_text := (baseline.lookup display).getD []
          generate_unified_for_file old_text ((outputs.lookup display).getD old_text)
            fp.old_path fp.new_path
      let block2 := if endsWithNL block = false then block ++ lc "\n" else block
      block2 :: generate_patchset_loop baseline outputs rest

/-- `DiffGenerator.generate_unified_patchset` (diffgen.py lines 42-69). -/
def generate_unified_patchset (baseline outputs : List (Text × Text)) (ps : PatchSet) : Text :=
  (generate_patchset_loop baseline outputs ps.files).flatten

/-- Normalize + parse + preview: the round-trip re-application pipeline of
§8.6 of the spec, as exercised by selftest 6 (selftests.py lines 202-220). -/
def reapply_generated (gen_text : Text) (baseline : List (Text × Text))
    (opts : ApplyOptions) (skip_bin : Bool) : Option (List (Text × Text)) :=
  let n := normalize gen_text
  preview_outputs_pure baseline (parse n.2.1 n.2.2) opts skip_bin

/-- The concrete round-trip instance: a one-hunk modify patch turning
`"a\n"` into `"b\n"` in file `f` (the shape of the repository's own
selftest 6). -/
def hunkC1 : Hunk :=
  { old_start := 1, old_count := 1, new_start := 1, new_count := 1,
    header := lc "@@ -1 +1 @@", lines := [('-', lc "a"), ('+', lc "b")] }

def fpC1 : FilePatch :=
  { old_path := lc "f", new_path := lc "f", display_path := lc "f",
    operation := "modify", hunks := [hunkC1], is_binary := false,
    binary_reason := "", metadata := [] }

def psC1 : PatchSet := { dialect := "Classic Unified", files := [fpC1] }

def optsC1 : ApplyOptions :=
  { ignore_ws := false, fuzzy := false, fuzzy_window := 200, conflict_mode := false }

/-- C1 (code bug): the round-trip fails.  Previewing `psC1` against the
baseline `{f: "a\n"}` succeeds and yields outputs `{f: "b\n"}`, but the
generated unified diff is malformed — `difflib.unified_diff` with
`lineterm="\n"` does not newline-terminate content lines, so the whole hunk
body is emitted as the single line `-a+b ` — and re-normalizing, re-parsing
and re-applying it to the same baseline fails (yields no outputs at all)
instead of reproducing the outputs. -/
theorem round_trip_fails_on_selftest_shape :
    preview_outputs_pure [(lc "f", lc "a\n")] psC1 optsC1 true =
      some [(lc "f", lc "b\n")] ∧
    generate_unified_patchset [(lc "f", lc "a\n")] [(lc "f", lc "b\n")] psC1 =
      lc "--- f\n+++ f\n@@ -1,2 +1,2 @@\n-a+b \n" ∧
    reapply_generated
      (generate_unified_patchset [(lc "f", lc "a\n")] [(lc "f", lc "b\n")] psC1)
      [(lc "f", lc "a\n")] optsC1 true = none := by
  refine ⟨by decide, by decide, by decide⟩

/-! ## Disk apply (applier.py lines 236-401) -/

/-- A preflight report entry (applier.py lines 109-116); the `suggested`
remediation string is display-only and omitted. -/
structure PreflightEntry where
  file : Text
  operation : String
  resolved : Text
  status : String
  filepatch : FilePatch
deriving DecidableEq

/-- The character class of the strict-name gate `[:*?"<>|]` (applier.py line 54). -/
def invalid_path_chars : List Char := [':', '*', '?', '"', '<', '>', '|']

/-- Modelled from the spec: `Path.resolve` and the `relative_to` descendant
check are OS operations; for the plain relative paths exercised here (no
`..` segments, no symlinks) resolution is concatenation under the root and
the result is always a descendant of the root, so the Outside-root
branches never fire. -/
def resolve_under (root rel : Text) : Text := root ++ '/' :: rel

/-- Modelled from the spec: the parent directory of a resolved path (the
text before its last `/`), used by the create branch of preflight. -/
def parent_dir (p : Text) : Text := ((p.reverse.dropWhile (· ≠ '/')).drop 1).reverse

/-- `PatchApplier.preflight` (applier.py lines 24-118) over an abstract
filesystem `fs` (the existing-path predicate). -/
def preflight (ps : PatchSet) (root : Option Text) (strict_names allow_rename : Bool)
    (fs : Text → Bool) : List PreflightEntry :=
  ps.files.map (fun fp =>
    let display := fp.display_path
    let op := fp.operation
    match root with
    | none =>
      { file := display, operation := op, resolved := [], status := "Invalid", filepatch := fp }
    | some r =>
      let candidate := if fp.new_path ≠ lc "/dev/null" then fp.new_path else fp.old_path
      if candidate = [] ∨ candidate = lc "/dev/null" then
        { file := display, operation := op, resolved := [], status := "Invalid", filepatch := fp }
      else if strict_names = true ∧ (startsWithT candidate (lc "/") = true ∨
          startsWithT candidate (lc "\\") = true ∨ candidate.any (· ∈ invalid_path_chars)) then
        { file := display, operation := op, resolved := [], status := "Invalid", filepatch := fp }
      else
        let resolved := resolve_under r candidate
        let status :=
          if fp.is_binary then "Unsupported (binary)"
          else if op = "modify" then (if fs resolved then "Found" else "Missing")
          else if op = "create" then (if fs (parent_dir resolved) then "Found" else "Missing")
          else if op = "delete" then (if fs resolved then "Found" else "Missing")
          else if op = "rename" then
            if allow_rename = false then "Blocked"
            else if fp.old_path ≠ [] ∧ fp.old_path ≠ lc "/dev/null" then
              (if fs (resolve_under r fp.old_path) then "Found" else "Missing")
            else "Found"
          else "Found"
        { file := display, operation := op, resolved := resolved, status := status,
          filepatch := fp })

/-- The option subset read by `apply_to_disk` (applier.py lines 242-246). -/
structure DiskOptions where
  allow_writing_conflicted_output : Bool
  preserve_original_line_endings : Bool
  allow_rename_delete_mode_changes : Bool
  partial_apply_per_file_override : Bool
  skip_unsupported_binary_files : Bool
  strict_filename_match : Bool
deriving DecidableEq

/-- Outcomes of the disk effects of `apply_to_disk`, injected so the
placement of `try`/`except` boundaries is explicit: `mkdir_backup_root` is
the UNGUARDED `backup_root.mkdir(parents=True, exist_ok=True)` at
applier.py line 276; `file_ops i` is the outcome of the `try` body (lines
324-388) for the `i`-th report entry — its internal backup/write/unlink
failures are caught by the `except` at line 389 and so stay per-file.  The
pure path checks at lines 300-314 cannot raise and are subsumed in the
per-file outcome. -/
structure DiskIO where
  mkdir_backup_root : Except String Unit
  file_ops : Nat → Except String Unit

/-- The result fields of `models.ApplyResult` relevant to the propagation
policy. -/
structure ApplyResultM where
  success : Bool
  overall_message : String
  per_file : List (Text × String)
  files_applied : Nat
deriving DecidableEq

/-- A preflight status blocks apply (applier.py lines 252-258). -/
def status_blocks (skip_bin : Bool) (st : String) : Bool :=
  st = "Missing" || st = "Invalid" || st = "Outside root" || st = "Blocked"
    || (st.startsWith "Unsupported" && !skip_bin)

/-- The success status string recorded per operation (applier.py lines
331, 342, 372, 386). -/
def op_done_status (op : String) : String :=
  if op = "delete" then "Deleted"
  else if op = "create" then "Created"
  else if op = "rename" then "Renamed"
  else "Modified"

/-- The per-file loop of `apply_to_disk` (applier.py lines 282-395): the
binary gate runs before the `try`; any exception inside the body is caught
and recorded, aborting the run (as a RETURNED result) without
`partial_apply_per_file_override`. -/
def disk_loop (opts : DiskOptions) (io : DiskIO) :
    List PreflightEntry → Nat → List (Text × String) → Nat → ApplyResultM
  | [], _, per_file, applied =>
    { success := true, overall_message := "Apply completed.",
      per_file := per_file, files_applied := applied }
  | r :: rest, i, per_file, applied =>
    if r.status.startsWith "Unsupported" then
      if opts.skip_unsupported_binary_files then
        disk_loop opts io rest (i + 1)
          (per_file ++ [(r.file, "Skipped (binary unsupported)")]) applied
      else if opts.partial_apply_per_file_override = false then
        { success := false, overall_message := "Apply failed due to blocked binary patch.",
          per_file := per_file ++ [(r.file, "Blocked (binary unsupported)")],
          files_applied := applied }
      else
        disk_loop opts io rest (i + 1)
          (per_file ++ [(r.file, "Blocked (binary unsupported)")]) applied
    else
      match io.file_ops i with
      | .ok _ =>
        disk_loop opts io rest (i + 1)
          (per_file ++ [(r.file, op_done_status r.operation)]) (applied + 1)
      | .error e =>
        if opts.partial_apply_per_file_override = false then
          { success := false, overall_message := "Apply failed due to one or more files.",
            per_file := per_file ++ [(r.file, "Failed: " ++ e)], files_applied := applied }
        else
          disk_loop opts io rest (i + 1) (per_file ++ [(r.file, "Failed: " ++ e)]) applied

/-- `PatchApplier.apply_to_disk` (applier.py lines 236-401): re-run
preflight, gate on blockers and on conflicted preview output, CREATE THE
BACKUP SESSION FOLDER (line 276, outside any `try`: an `OSError` there
escapes the function, modelled as `Except.error`), then the per-file loop.
Every other failure is returned inside an `ApplyResultM`. -/
def apply_to_disk (ps : PatchSet) (root : Text) (preview_conflicted : List Text)
    (opts : DiskOptions) (fs : Text → Bool) (io : DiskIO) : Except String ApplyResultM :=
  let report := preflight ps (some root) opts.strict_filename_match
    opts.allow_rename_delete_mode_changes fs
  let blocking := report.filter
    (fun r => status_blocks opts.skip_unsupported_binary_files r.status)
  if blocking.isEmpty = false then
    .ok { success := false,
          overall_message := "Patch references files not found under the selected root folder.",
          per_file := [], files_applied := 0 }
  else if preview_conflicted.isEmpty = false ∧
      opts.allow_writing_conflicted_output = false then
    .ok { success := false,
          overall_message := "Conflicted output was produced; writing to disk is blocked.",
          per_file := [], files_applied := 0 }
  else
    match io.mkdir_backup_root with
    | .error e => .error e
    | .ok _ => .ok (disk_loop opts io report 0 [] 0)

def defaultDiskOptions : DiskOptions :=
  { allow_writing_conflicted_output := false, preserve_original_line_endings := true,
    allow_rename_delete_mode_changes := false, partial_apply_per_file_override := false,
    skip_unsupported_binary_files := false, strict_filename_match := false }

/-- C2 (code bug): `apply_to_disk` does raise across the public surface
when creating the backup session folder fails (applier.py line 276 is not
inside any `try`): with an empty patch set, a valid root, no conflicts and
a failing `mkdir`, the call propagates the `OSError` instead of returning
an `ApplyResult`; with the `mkdir` succeeding, the very same call returns a
normal result. -/
theorem apply_to_disk_raises_on_backup_mkdir_failure :
    apply_to_disk { dialect := "Classic Unified", files := [] } (lc "/ws") []
      defaultDiskOptions (fun _ => false)
      { mkdir_backup_root := .error "OSError: [Errno 30] Read-only file system",
        file_ops := fun _ => .ok () } =
      .error "OSError: [Errno 30] Read-only file system" ∧
    apply_to_disk { dialect := "Classic Unified", files := [] } (lc "/ws") []
      defaultDiskOptions (fun _ => false)
      { mkdir_backup_root := .ok (), file_ops := fun _ => .ok () } =
      .ok { success := true, overall_message := "Apply completed.",
            per_file := [], files_applied := 0 } :=
  ⟨rfl, rfl⟩

end PatchStudio
